import Mathlib

/-!
Verification of the movedoro release-automation scripts.

The two Python scripts are embedded shallowly: a Python `str` is modelled as
a `List Char` (named `Str` below), `str.strip()` as `strip`, `str.startswith`
as `startswith`, `s.split(sep, 1)` as `split1`, and `sep in s` as
`containsStr`.  `scripts/generate_latest_changes.py` becomes
`GenerateLatestChanges.main`, with its two `exit(1)` paths as the
`Except.error` cases; `scripts/generate_html_for_sparkle_release.py` becomes
`GenerateHtmlForSparkleRelease.main`.  The third-party `markdown.markdown`
conversion, which is not part of this repository, is modelled from the
specification (see `GenerateHtmlForSparkleRelease.markdownBlocks`).
-/

/-- A Python string, modelled as its list of characters. -/
abbrev Str := List Char

/-- The whitespace characters removed by Python `str.strip()`
(space, tab, newline, carriage return, vertical tab, form feed). -/
def isSpace (c : Char) : Bool :=
  c == ' ' || c == '\t' || c == '\n' || c == '\r' ||
    c == Char.ofNat 11 || c == Char.ofNat 12

/-- Remove leading whitespace (the left half of Python `str.strip()`). -/
def stripLeft (s : Str) : Str := s.dropWhile isSpace

/-- Remove trailing whitespace (the right half of Python `str.strip()`). -/
def stripRight : Str → Str
  | [] => []
  | c :: cs =>
    match stripRight cs with
    | [] => if isSpace c then [] else [c]
    | r => c :: r

/-- Python `s.strip()`: remove leading and trailing whitespace. -/
def strip (s : Str) : Str := stripLeft (stripRight s)

/-- Python `s.startswith(pre)`. -/
def startswith (s pre : Str) : Bool := pre.isPrefixOf s

/-- Split at the first occurrence of `sep`: `splitOnce sep s = some (a, b)`
when `s = a ++ sep ++ b` with `a` shortest, `none` when `sep` does not occur
in `s`.  This is the engine behind Python `s.split(sep, 1)` and `sep in s`. -/
def splitOnce (sep : Str) : Str → Option (Str × Str)
  | [] => if sep.isPrefixOf ([] : Str) then some ([], []) else none
  | c :: cs =>
    if sep.isPrefixOf (c :: cs) then some ([], (c :: cs).drop sep.length)
    else
      match splitOnce sep cs with
      | some (a, b) => some (c :: a, b)
      | none => none

/-- Python `sep in s` (substring membership). -/
def containsStr (s sep : Str) : Bool := (splitOnce sep s).isSome

/-- Python `s.split(sep, 1)` packaged as a pair `(before, after)`;
when `sep` does not occur the second component is unused by the scripts. -/
def split1 (s sep : Str) : Str × Str :=
  match splitOnce sep s with
  | some p => p
  | none => (s, [])

/-- The separator `" - "` between version and title in a heading. -/
def SEP : Str := (" - ").toList

/-- The heading marker `"# "`. -/
def HASH_SP : Str := ("# ").toList

/-- The bullet marker `"* "`. -/
def STAR_SP : Str := ("* ").toList

/-- The bullet marker `"- "`. -/
def DASH_SP : Str := ("- ").toList

/-- The default-title template text `"Version "`. -/
def VERSION_SP : Str := ("Version ").toList

namespace GenerateLatestChanges

/-- The two checked failures of `scripts/generate_latest_changes.py`:
`exit(1)` on an empty `Release_Notes.md` and `exit(1)` on a first line that
is not a `'# '` header. -/
inductive Error where
  | emptyInput
  | malformedHeader
deriving DecidableEq, Repr

/-- The four values the extractor writes (to the files `new_version`,
`old_version`, `title`, `latest_changes`). -/
structure Result where
  new_version : Str
  old_version : Str
  title : Str
  latest_changes : Str
deriving DecidableEq, Repr

/-- Lines 28-34 of `generate_latest_changes.py`: split `"1.1.0 - Title"`
into version and title, the title defaulting to `"Version {v}"`. -/
def parseHeaderContent (header_content : Str) : Str × Str :=
  if containsStr header_content SEP then split1 header_content SEP
  else (header_content, VERSION_SP ++ header_content)

/-- Lines 46-50 of `generate_latest_changes.py`: the version token of a
subsequent header (`header_content.split(' - ', 1)[0]`, or the whole
content when `' - '` is absent). -/
def versionToken (header_content : Str) : Str :=
  if containsStr header_content SEP then (split1 header_content SEP).1
  else header_content

/-- Lines 40-51 of `generate_latest_changes.py`: the scan over `lines[1:]`,
accumulating stripped bullet lines (each followed by `'\n'`) and stopping at
the first subsequent header, whose version token becomes `old_version`.
Returns `(latest_changes, old_version)`. -/
def scanRest : List Str → Str × Str
  | [] => ([], [])
  | l :: ls =>
    let line := strip l
    if startswith line STAR_SP || startswith line DASH_SP then
      let r := scanRest ls
      (line ++ '\n' :: r.1, r.2)
    else if startswith line HASH_SP then
      ([], versionToken (line.drop 2))
    else scanRest ls

/-- `main` of `generate_latest_changes.py` on the list of lines of
`Release_Notes.md`: the two checked failures, the first-header parse, the
bullet scan, and the `.strip()` applied to each value as it is written. -/
def main (lines : List Str) : Except Error Result :=
  match lines with
  | [] => .error .emptyInput
  | first :: rest =>
    let first_header := strip first
    if startswith first_header HASH_SP then
      let header_content := first_header.drop 2
      let vt := parseHeaderContent header_content
      let so := scanRest rest
      .ok ⟨strip vt.1, strip so.2, strip vt.2, strip so.1⟩
    else .error .malformedHeader

/-- The (filename, contents) writes performed by `main`: the script exits
before the `open(..., 'w')` block on either checked failure, so a failing
run writes nothing. -/
def mainWrites (lines : List Str) : List (Str × Str) :=
  match main lines with
  | .error _ => []
  | .ok r =>
      [(("new_version").toList, r.new_version),
       (("old_version").toList, r.old_version),
       (("title").toList, r.title),
       (("latest_changes").toList, r.latest_changes)]

/-- The process exit status of `generate_latest_changes.py`: `1` via
`exit(1)` on either checked failure, `0` on a completed run. -/
def exitStatus (lines : List Str) : Nat :=
  match main lines with
  | .error _ => 1
  | .ok _ => 0

end GenerateLatestChanges

/-- A line whose stripped form starts with `"# "` (a heading line of the
changelog, in the spec's sense). -/
def isHeadingLine (l : Str) : Bool := startswith (strip l) HASH_SP

/-- A line whose stripped form starts with `"* "` or `"- "` (a bullet line
of the changelog, in the spec's sense). -/
def isBulletLine (l : Str) : Bool :=
  startswith (strip l) STAR_SP || startswith (strip l) DASH_SP

/-- The stripped bullet lines occurring strictly before the first heading
line, in order: the spec's description of the extracted changes. -/
def bulletsBefore (ls : List Str) : List Str :=
  ((ls.takeWhile fun l => !(isHeadingLine l)).filter isBulletLine).map strip

/-- The raw (untrimmed) old-version value determined by a list of lines:
the version token of the first heading line among them, or empty if there
is none.  The spec's description of the `old_version` scan result. -/
def oldVersionOf (ls : List Str) : Str :=
  match ls.find? isHeadingLine with
  | some h => GenerateLatestChanges.versionToken ((strip h).drop 2)
  | none => []

/-- Concatenate, terminating every string with a newline (the shape built by
the `latest_changes += line + "\n"` accumulation). -/
def joinNL : List Str → Str
  | [] => []
  | b :: bs => b ++ '\n' :: joinNL bs

/-- Join with single newline separators and no trailing newline
(one string per line). -/
def intercalateNL : List Str → Str
  | [] => []
  | [b] => b
  | b :: bs => b ++ '\n' :: intercalateNL bs

namespace GenerateHtmlForSparkleRelease

/-- A block-level element of the converted HTML fragment. -/
inductive Block where
  | h1 (content : Str)
  | ul (items : List Str)
  | para (content : Str)
deriving DecidableEq, Repr

/-- Whether `b` is a `Block.ul`. -/
def Block.isUl : Block → Bool
  | .ul _ => true
  | _ => false

/-- Whether `b` is a `Block.h1`. -/
def Block.isH1 : Block → Bool
  | .h1 _ => true
  | _ => false

/-- A markdown bullet line as seen by the converter (raw line, no
stripping: the renderer's input lines are already stripped). -/
def mdIsBullet (l : Str) : Bool := startswith l STAR_SP || startswith l DASH_SP

/-- Modelled from the spec: the contiguous run of bullet lines opening a
list block, together with the remaining lines.  Supports
`markdownBlocks`. -/
def collectBullets : List Str → List Str × List Str
  | [] => ([], [])
  | l :: ls =>
    if mdIsBullet l then
      let r := collectBullets ls
      (l :: r.1, r.2)
    else ([], l :: ls)

lemma collectBullets_rest_length (ls : List Str) :
    (collectBullets ls).2.length ≤ ls.length := by
  induction ls with
  | nil => simp [collectBullets]
  | cons l ls ih =>
    simp only [collectBullets]
    split
    · simpa using Nat.le_succ_of_le ih
    · simp

/-- Split a string into its newline-separated lines (the line structure the
markdown converter works on). -/
def splitLines : Str → List Str
  | [] => [[]]
  | c :: cs =>
    if c = '\n' then [] :: splitLines cs
    else
      match splitLines cs with
      | [] => [[c]]
      | l :: ls => (c :: l) :: ls

/-- Modelled from the spec: the block structure produced by the
`markdown.markdown` library call (which is not part of this repository) on a
list of lines — a leading `"# "` line becomes an `h1` element, a contiguous
run of `"* "`/`"- "` lines becomes a `ul` with one `li` per bullet, blank
lines separate blocks, and any other line is rendered as a paragraph.
Inline markup is kept literal in this model. -/
def markdownBlocks (ls : List Str) : List Block :=
  match ls with
  | [] => []
  | l :: rest =>
    if startswith l HASH_SP then .h1 (l.drop 2) :: markdownBlocks rest
    else if mdIsBullet l then
      .ul ((l :: (collectBullets rest).1).map fun i => i.drop 2) ::
        markdownBlocks (collectBullets rest).2
    else if strip l = [] then markdownBlocks rest
    else .para l :: markdownBlocks rest
termination_by ls.length
decreasing_by
  all_goals simp only [List.length_cons]
  all_goals try omega
  all_goals exact Nat.lt_succ_of_le (collectBullets_rest_length _)

/-- The serialized `li` elements of a list block, one per item. -/
def liItems : List Str → Str
  | [] => []
  | i :: rest => ("<li>").toList ++ i ++ ("</li>\n").toList ++ liItems rest

/-- Serialization of one block element. -/
def htmlOfBlock : Block → Str
  | .h1 c => ("<h1>").toList ++ c ++ ("</h1>").toList
  | .ul items => ("<ul>\n").toList ++ liItems items ++ ("</ul>").toList
  | .para c => ("<p>").toList ++ c ++ ("</p>").toList

/-- Modelled from the spec: `markdown.markdown(md)` — parse the document
into blocks and serialize them, blocks separated by newlines. -/
def markdownHtml (md : Str) : Str :=
  intercalateNL ((markdownBlocks (splitLines md)).map htmlOfBlock)

/-- Line 16 of `generate_html_for_sparkle_release.py`:
`md_content = f"# {title}\n\n{changes}"`. -/
def mkMdContent (title changes : Str) : Str :=
  HASH_SP ++ title ++ ("\n\n").toList ++ changes

/-- The block structure of the fragment the renderer feeds into the HTML
skeleton, given the raw contents of the `title` and `latest_changes`
files (both are stripped on read, lines 9-13). -/
def rendererBlocks (title_file changes_file : Str) : List Block :=
  markdownBlocks (splitLines (mkMdContent (strip title_file) (strip changes_file)))

/-- The fixed skeleton text before the title (lines 22-26 of
`generate_html_for_sparkle_release.py`). -/
def HTML_PRE : Str :=
  ("<!DOCTYPE html>\n<html>\n<head>\n    <meta charset=\"utf-8\">\n    <title>").toList

/-- The fixed skeleton text between the title and the fragment: the closing
title tag, the inline style block, and the opening of the body (lines 26-49
of `generate_html_for_sparkle_release.py`). -/
def HTML_MID : Str :=
  ("</title>\n    <style>\n        body \x7b\n            font-family: -apple-system, BlinkMacSystemFont, \"Segoe UI\", Roboto, Helvetica, Arial, sans-serif;\n            padding: 20px;\n            max-width: 600px;\n            margin: 0 auto;\n            color: #333;\n        \x7d\n        h1 \x7b\n            font-size: 1.5em;\n            border-bottom: 1px solid #eee;\n            padding-bottom: 10px;\n        \x7d\n        ul \x7b\n            padding-left: 20px;\n        \x7d\n        li \x7b\n            margin: 8px 0;\n        \x7d\n    </style>\n</head>\n<body>\n").toList

/-- The fixed skeleton text after the fragment (lines 49-52). -/
def HTML_POST : Str := ("\n</body>\n</html>\n").toList

/-- `main` of `generate_html_for_sparkle_release.py`: strip the two input
files, build the markdown document, convert it, and wrap the fragment in
the fixed skeleton; returns the contents written to
`latest_changes.html`. -/
def main (title_file changes_file : Str) : Str :=
  let title := strip title_file
  let changes := strip changes_file
  let md_content := mkMdContent title changes
  let html := markdownHtml md_content
  HTML_PRE ++ title ++ HTML_MID ++ html ++ HTML_POST

end GenerateHtmlForSparkleRelease

/-- Python `f.readlines()` on the contents of a file: the list of lines,
empty for an empty file; the trailing line terminators are dropped here,
which is observationally equivalent because every access in the scripts
strips the line first. -/
def readlines (doc : Str) : List Str :=
  if doc = [] then []
  else if doc.getLast? = some '\n' then
    (GenerateHtmlForSparkleRelease.splitLines doc).dropLast
  else GenerateHtmlForSparkleRelease.splitLines doc

/-- The working directory as the two scripts see it: the input changelog
plus the five output files (absent before the first run). -/
structure FS where
  release_notes : Str
  new_version : Option Str
  old_version : Option Str
  title : Option Str
  latest_changes : Option Str
  latest_changes_html : Option Str
deriving DecidableEq, Repr

/-- One run of `generate_latest_changes.py` against the working directory:
on success the four outputs are overwritten, on `exit(1)` nothing is
written. -/
def extractorRun (fs : FS) : FS :=
  match GenerateLatestChanges.main (readlines fs.release_notes) with
  | .error _ => fs
  | .ok r =>
      { fs with
        new_version := some r.new_version
        old_version := some r.old_version
        title := some r.title
        latest_changes := some r.latest_changes }

/-- One run of `generate_html_for_sparkle_release.py` against the working
directory: reads `title` and `latest_changes`, writes
`latest_changes.html`; a missing input file aborts with a file-not-found
error before any write. -/
def rendererRun (fs : FS) : FS :=
  match fs.title, fs.latest_changes with
  | some t, some c =>
      { fs with
        latest_changes_html := some (GenerateHtmlForSparkleRelease.main t c) }
  | _, _ => fs

/-- The two stages run in sequence. -/
def pipeline (fs : FS) : FS := rendererRun (extractorRun fs)

lemma HASH_SP_eq : HASH_SP = ['#', ' '] := rfl

lemma STAR_SP_eq : STAR_SP = ['*', ' '] := rfl

lemma DASH_SP_eq : DASH_SP = ['-', ' '] := rfl

lemma SEP_eq : SEP = [' ', '-', ' '] := rfl

lemma mem_stripLeft {x : Char} {s : Str} (h : x ∈ stripLeft s) : x ∈ s := by
  induction s with
  | nil => exact absurd h (by simp [stripLeft])
  | cons c cs ih =>
    by_cases hc : isSpace c
    · rw [stripLeft, List.dropWhile_cons, if_pos hc] at h
      exact List.mem_cons_of_mem _ (ih h)
    · rw [stripLeft, List.dropWhile_cons, if_neg hc] at h
      exact h

lemma mem_stripRight {x : Char} {s : Str} (h : x ∈ stripRight s) : x ∈ s := by
  induction s with
  | nil => exact absurd h (by simp [stripRight])
  | cons c cs ih =>
    simp only [stripRight] at h
    rcases hr : stripRight cs with _ | ⟨r, rs⟩ <;> rw [hr] at h
    · by_cases hc : isSpace c
      · simp [hc] at h
      · simp [hc] at h
        simp [h]
    · rcases List.mem_cons.mp h with rfl | hx
      · exact List.mem_cons_self _ _
      · exact List.mem_cons_of_mem _ (ih (hr ▸ hx))

lemma mem_strip {x : Char} {s : Str} (h : x ∈ strip s) : x ∈ s :=
  mem_stripRight (mem_stripLeft h)

lemma stripRight_cons_nil {c : Char} {cs : Str} (h : stripRight cs = []) :
    stripRight (c :: cs) = if isSpace c then [] else [c] := by
  simp only [stripRight, h]

lemma stripRight_cons_of_ne {c : Char} {cs : Str} (h : stripRight cs ≠ []) :
    stripRight (c :: cs) = c :: stripRight cs := by
  rcases hr : stripRight cs with _ | ⟨r, rs⟩
  · exact absurd hr h
  · simp only [stripRight, hr]

lemma stripRight_idem (s : Str) : stripRight (stripRight s) = stripRight s := by
  induction s with
  | nil => rfl
  | cons c cs ih =>
    rcases hr : stripRight cs with _ | ⟨r, rs⟩
    · by_cases hc : isSpace c
      · rw [stripRight_cons_nil hr, if_pos hc]
        rfl
      · rw [stripRight_cons_nil hr, if_neg hc,
          stripRight_cons_nil (show stripRight ([] : Str) = [] from rfl), if_neg hc]
    · have hne : stripRight cs ≠ [] := by rw [hr]; simp
      have hne2 : stripRight (stripRight cs) ≠ [] := by rw [ih]; exact hne
      rw [stripRight_cons_of_ne hne, stripRight_cons_of_ne hne2, ih]

lemma stripLeft_idem (s : Str) : stripLeft (stripLeft s) = stripLeft s := by
  induction s with
  | nil => rfl
  | cons c cs ih =>
    by_cases hc : isSpace c
    · simpa [stripLeft, List.dropWhile_cons, hc] using ih
    · simp [stripLeft, List.dropWhile_cons, hc]

lemma stripRight_cons_fix {c : Char} {cs : Str}
    (h : stripRight (c :: cs) = c :: cs) : stripRight cs = cs := by
  rcases hr : stripRight cs with _ | ⟨r, rs⟩
  · rw [stripRight_cons_nil hr] at h
    by_cases hc : isSpace c
    · rw [if_pos hc] at h
      exact absurd h (by simp)
    · rw [if_neg hc] at h
      rw [← (List.cons.inj h).2]
  · rw [stripRight_cons_of_ne (by rw [hr]; simp)] at h
    injection h with h1 h2
    exact hr ▸ h2

lemma stripRight_dropWhile (p : Char → Bool) {s : Str} (h : stripRight s = s) :
    stripRight (s.dropWhile p) = s.dropWhile p := by
  induction s with
  | nil => rfl
  | cons c cs ih =>
    have hcs := stripRight_cons_fix h
    by_cases hc : p c
    · rw [List.dropWhile_cons, if_pos hc]
      exact ih hcs
    · rw [List.dropWhile_cons, if_neg hc]
      exact h

lemma stripRight_strip (s : Str) : stripRight (strip s) = strip s :=
  stripRight_dropWhile isSpace (stripRight_idem s)

lemma strip_idem (s : Str) : strip (strip s) = strip s := by
  show stripLeft (stripRight (strip s)) = strip s
  rw [stripRight_strip]
  show stripLeft (stripLeft (stripRight s)) = stripLeft (stripRight s)
  exact stripLeft_idem _

lemma stripRight_append (xs ys : Str) :
    stripRight (xs ++ ys) =
      if stripRight ys = [] then stripRight xs else xs ++ stripRight ys := by
  induction xs with
  | nil => by_cases h : stripRight ys = [] <;> simp [h, stripRight]
  | cons x xs ih =>
    by_cases h : stripRight ys = []
    · rw [if_pos h] at ih ⊢
      rcases hxs : stripRight xs with _ | ⟨a, as⟩
      · rw [List.cons_append, stripRight_cons_nil (ih.trans hxs),
          stripRight_cons_nil hxs]
      · rw [List.cons_append, stripRight_cons_of_ne (by rw [ih, hxs]; simp),
          stripRight_cons_of_ne (by rw [hxs]; simp), ih]
    · rw [if_neg h] at ih ⊢
      rw [List.cons_append,
        stripRight_cons_of_ne (by rw [ih]; simp [List.append_eq_nil, h]), ih]
      rfl

lemma stripRight_newline : stripRight ['\n'] = [] := rfl

lemma stripRight_joinNL (bs : List Str) (hne : bs ≠ [])
    (hcl : ∀ b ∈ bs, b ≠ [] ∧ stripRight b = b) :
    stripRight (joinNL bs) = intercalateNL bs := by
  induction bs with
  | nil => cases hne rfl
  | cons b bs ih =>
    cases bs with
    | nil =>
      have hb := hcl b (by simp)
      show stripRight (b ++ '\n' :: joinNL []) = intercalateNL [b]
      rw [show ('\n' :: joinNL [] : Str) = ['\n'] from rfl, stripRight_append]
      simp [stripRight_newline, hb.2, intercalateNL]
    | cons b2 bs2 =>
      have ihh := ih (by simp) (fun x hx => hcl x (by simp [hx]))
      have e : joinNL (b :: b2 :: bs2) = (b ++ ['\n']) ++ joinNL (b2 :: bs2) := by
        simp [joinNL]
      rw [e, stripRight_append, ihh]
      have hni : intercalateNL (b2 :: bs2) ≠ [] := by
        cases bs2 with
        | nil => exact (hcl b2 (by simp)).1
        | cons b3 bs3 => simp [intercalateNL]
      rw [if_neg hni]
      simp [intercalateNL]

lemma strip_joinNL (bs : List Str)
    (hcl : ∀ b ∈ bs, b ≠ [] ∧ stripRight b = b ∧ isSpace (b.headD ' ') = false) :
    strip (joinNL bs) = intercalateNL bs := by
  cases bs with
  | nil => rfl
  | cons b bs' =>
    have h1 := stripRight_joinNL (b :: bs') (by simp)
      (fun x hx => ⟨(hcl x hx).1, (hcl x hx).2.1⟩)
    show stripLeft (stripRight (joinNL (b :: bs'))) = intercalateNL (b :: bs')
    rw [h1]
    have hb := hcl b (by simp)
    rcases b with _ | ⟨x, xs⟩
    · exact absurd rfl hb.1
    · have hx : isSpace x = false := by simpa using hb.2.2
      cases bs' with
      | nil =>
        show stripLeft (x :: xs) = x :: xs
        rw [stripLeft, List.dropWhile_cons, if_neg (by simp [hx])]
      | cons b2 bs2 =>
        show stripLeft ((x :: xs) ++ '\n' :: intercalateNL (b2 :: bs2)) = _
        rw [List.cons_append, stripLeft, List.dropWhile_cons,
          if_neg (by simp [hx])]
        rfl

lemma isPrefixOf_append (p s : Str) : List.isPrefixOf p (p ++ s) = true := by
  induction p with
  | nil => cases s <;> rfl
  | cons a p ih => simp [List.isPrefixOf, ih]

lemma startswith_exists {s p : Str} (h : startswith s p = true) :
    ∃ t, s = p ++ t := by
  unfold startswith at h
  induction p generalizing s with
  | nil => exact ⟨s, rfl⟩
  | cons a p ih =>
    cases s with
    | nil => simp [List.isPrefixOf] at h
    | cons b t =>
      simp only [List.isPrefixOf, Bool.and_eq_true, beq_iff_eq] at h
      obtain ⟨rfl, h2⟩ := h
      obtain ⟨t', rfl⟩ := ih h2
      exact ⟨t', rfl⟩

lemma startswith_append (p s : Str) : startswith (p ++ s) p = true :=
  isPrefixOf_append p s

lemma heading_not_bullet {s : Str} (h : startswith s HASH_SP = true) :
    startswith s STAR_SP = false ∧ startswith s DASH_SP = false := by
  obtain ⟨t, rfl⟩ := startswith_exists h
  constructor <;> rfl

lemma bullet_not_heading {s : Str}
    (h : startswith s STAR_SP = true ∨ startswith s DASH_SP = true) :
    startswith s HASH_SP = false := by
  rcases h with h | h <;> obtain ⟨t, rfl⟩ := startswith_exists h <;> rfl

lemma bullet_clean {b : Str}
    (h : startswith b STAR_SP = true ∨ startswith b DASH_SP = true) :
    b ≠ [] ∧ isSpace (b.headD ' ') = false := by
  rcases h with h | h <;> obtain ⟨t, rfl⟩ := startswith_exists h <;>
    exact ⟨by simp [STAR_SP_eq, DASH_SP_eq], rfl⟩

lemma splitOnce_append {sep s a b : Str} (h : splitOnce sep s = some (a, b)) :
    s = a ++ sep ++ b := by
  induction s generalizing a b with
  | nil =>
    simp only [splitOnce] at h
    by_cases hp : List.isPrefixOf sep ([] : Str) = true
    · rw [if_pos hp] at h
      obtain ⟨t, ht⟩ := startswith_exists (s := ([] : Str)) hp
      obtain ⟨rfl, rfl⟩ := Prod.mk.inj (Option.some.inj h)
      simp at ht
      simp [ht.1]
    · rw [if_neg hp] at h
      cases h
  | cons c cs ih =>
    simp only [splitOnce] at h
    by_cases hp : List.isPrefixOf sep (c :: cs) = true
    · rw [if_pos hp] at h
      obtain ⟨t, ht⟩ := startswith_exists (s := c :: cs) hp
      obtain ⟨rfl, rfl⟩ := Prod.mk.inj (Option.some.inj h)
      rw [ht, List.nil_append, List.drop_left]
    · rw [if_neg hp] at h
      rcases hs : splitOnce sep cs with _ | ⟨a', b'⟩ <;> rw [hs] at h
      · cases h
      · obtain ⟨rfl, rfl⟩ := Prod.mk.inj (Option.some.inj h)
        have := ih hs
        simp [this]

lemma splitOnce_minimal {sep s a b : Str} (h : splitOnce sep s = some (a, b)) :
    ∀ a' b', s = a' ++ sep ++ b' → a.length ≤ a'.length := by
  induction s generalizing a b with
  | nil =>
    intro a' b' he
    simp only [splitOnce] at h
    by_cases hp : List.isPrefixOf sep ([] : Str) = true
    · rw [if_pos hp] at h
      obtain ⟨rfl, rfl⟩ := Prod.mk.inj (Option.some.inj h)
      simp
    · rw [if_neg hp] at h
      cases h
  | cons c cs ih =>
    intro a' b' he
    simp only [splitOnce] at h
    by_cases hp : List.isPrefixOf sep (c :: cs) = true
    · rw [if_pos hp] at h
      obtain ⟨rfl, rfl⟩ := Prod.mk.inj (Option.some.inj h)
      simp
    · rw [if_neg hp] at h
      rcases hs : splitOnce sep cs with _ | ⟨a0, b0⟩ <;> rw [hs] at h
      · cases h
      · obtain ⟨rfl, rfl⟩ := Prod.mk.inj (Option.some.inj h)
        cases a' with
        | nil =>
          exfalso
          simp only [List.nil_append] at he
          rw [he] at hp
          exact hp (isPrefixOf_append sep b')
        | cons c' a'' =>
          simp only [List.cons_append, List.append_assoc] at he
          obtain ⟨rfl, he2⟩ := List.cons.inj he
          have := ih hs a'' b' (by simpa [List.append_assoc] using he2)
          simpa using Nat.succ_le_succ this

lemma splitOnce_none {sep s : Str} (h : splitOnce sep s = none) :
    ∀ a b, s ≠ a ++ sep ++ b := by
  induction s with
  | nil =>
    intro a b he
    have h0 : (a ++ sep ++ b : Str) = [] := he.symm
    obtain ⟨h1, hb⟩ := List.append_eq_nil.mp h0
    obtain ⟨ha, hs2⟩ := List.append_eq_nil.mp h1
    simp only [splitOnce] at h
    rw [hs2] at h
    simp [List.isPrefixOf] at h
  | cons c cs ih =>
    intro a b he
    simp only [splitOnce] at h
    by_cases hp : List.isPrefixOf sep (c :: cs) = true
    · rw [if_pos hp] at h
      cases h
    · rw [if_neg hp] at h
      rcases hs : splitOnce sep cs with _ | ⟨a0, b0⟩ <;> rw [hs] at h
      · cases a with
        | nil =>
          simp only [List.nil_append] at he
          rw [he] at hp
          exact hp (isPrefixOf_append sep b)
        | cons c' a'' =>
          simp only [List.cons_append, List.append_assoc] at he
          obtain ⟨rfl, he2⟩ := List.cons.inj he
          exact ih hs a'' b (by simpa [List.append_assoc] using he2)
      · cases h

namespace GenerateLatestChanges

lemma scanRest_cons_bullet {l : Str} {ls : List Str}
    (hb : (startswith (strip l) STAR_SP || startswith (strip l) DASH_SP) = true) :
    scanRest (l :: ls) =
      (strip l ++ '\n' :: (scanRest ls).1, (scanRest ls).2) := by
  simp only [scanRest]
  rw [if_pos hb]

lemma scanRest_cons_heading {l : Str} {ls : List Str}
    (hb : (startswith (strip l) STAR_SP || startswith (strip l) DASH_SP) = false)
    (hh : startswith (strip l) HASH_SP = true) :
    scanRest (l :: ls) = ([], versionToken ((strip l).drop 2)) := by
  simp only [scanRest]
  rw [if_neg (by simp [hb]), if_pos hh]

lemma scanRest_cons_skip {l : Str} {ls : List Str}
    (hb : (startswith (strip l) STAR_SP || startswith (strip l) DASH_SP) = false)
    (hh : startswith (strip l) HASH_SP = false) :
    scanRest (l :: ls) = scanRest ls := by
  simp only [scanRest]
  rw [if_neg (by simp [hb]), if_neg (by simp [hh])]

end GenerateLatestChanges

lemma bulletsBefore_cons_bullet {l : Str} {ls : List Str}
    (hb : isBulletLine l = true) :
    bulletsBefore (l :: ls) = strip l :: bulletsBefore ls := by
  have hh : isHeadingLine l = false := by
    simpa [isHeadingLine] using
      bullet_not_heading (by simpa [isBulletLine] using hb)
  simp [bulletsBefore, List.takeWhile_cons, hh, List.filter_cons, hb]

lemma bulletsBefore_cons_heading {l : Str} {ls : List Str}
    (hh : isHeadingLine l = true) : bulletsBefore (l :: ls) = [] := by
  simp [bulletsBefore, List.takeWhile_cons, hh]

lemma bulletsBefore_cons_skip {l : Str} {ls : List Str}
    (hb : isBulletLine l = false) (hh : isHeadingLine l = false) :
    bulletsBefore (l :: ls) = bulletsBefore ls := by
  simp [bulletsBefore, List.takeWhile_cons, hh, List.filter_cons, hb]

lemma oldVersionOf_cons_heading {l : Str} {ls : List Str}
    (hh : isHeadingLine l = true) :
    oldVersionOf (l :: ls) = GenerateLatestChanges.versionToken ((strip l).drop 2) := by
  simp [oldVersionOf, List.find?_cons, hh]

lemma oldVersionOf_cons_other {l : Str} {ls : List Str}
    (hh : isHeadingLine l = false) :
    oldVersionOf (l :: ls) = oldVersionOf ls := by
  simp [oldVersionOf, List.find?_cons, hh]

namespace GenerateLatestChanges

lemma scanRest_fst (ls : List Str) :
    (scanRest ls).1 = joinNL (bulletsBefore ls) := by
  induction ls with
  | nil => rfl
  | cons l ls ih =>
    by_cases hb : (startswith (strip l) STAR_SP || startswith (strip l) DASH_SP) = true
    · rw [scanRest_cons_bullet hb,
        bulletsBefore_cons_bullet (by simpa [isBulletLine] using hb)]
      simp [joinNL, ih]
    · have hb' : (startswith (strip l) STAR_SP || startswith (strip l) DASH_SP) = false :=
        Bool.not_eq_true _ ▸ (by simpa using hb)
      by_cases hh : startswith (strip l) HASH_SP = true
      · rw [scanRest_cons_heading hb' hh,
          bulletsBefore_cons_heading (by simpa [isHeadingLine] using hh)]
        rfl
      · have hh' : startswith (strip l) HASH_SP = false :=
          Bool.not_eq_true _ ▸ (by simpa using hh)
        rw [scanRest_cons_skip hb' hh',
          bulletsBefore_cons_skip (by simpa [isBulletLine] using hb')
            (by simpa [isHeadingLine] using hh')]
        exact ih

lemma scanRest_snd (ls : List Str) : (scanRest ls).2 = oldVersionOf ls := by
  induction ls with
  | nil => rfl
  | cons l ls ih =>
    by_cases hb : (startswith (strip l) STAR_SP || startswith (strip l) DASH_SP) = true
    · have hh : isHeadingLine l = false := by
        simpa [isHeadingLine] using bullet_not_heading (by simpa using hb)
      rw [scanRest_cons_bullet hb, oldVersionOf_cons_other hh]
      exact ih
    · have hb' : (startswith (strip l) STAR_SP || startswith (strip l) DASH_SP) = false :=
        Bool.not_eq_true _ ▸ (by simpa using hb)
      by_cases hh : startswith (strip l) HASH_SP = true
      · rw [scanRest_cons_heading hb' hh,
          oldVersionOf_cons_heading (by simpa [isHeadingLine] using hh)]
      · have hh' : startswith (strip l) HASH_SP = false :=
          Bool.not_eq_true _ ▸ (by simpa using hh)
        rw [scanRest_cons_skip hb' hh',
          oldVersionOf_cons_other (by simpa [isHeadingLine] using hh')]
        exact ih

lemma main_cons_ok {first : Str} {rest : List Str}
    (hh : startswith (strip first) HASH_SP = true) :
    main (first :: rest) =
      .ok ⟨strip (parseHeaderContent ((strip first).drop 2)).1,
           strip (scanRest rest).2,
           strip (parseHeaderContent ((strip first).drop 2)).2,
           strip (scanRest rest).1⟩ := by
  simp only [main]
  rw [if_pos hh]

lemma main_cons_err {first : Str} {rest : List Str}
    (hh : startswith (strip first) HASH_SP = false) :
    main (first :: rest) = .error .malformedHeader := by
  simp only [main]
  rw [if_neg (by simp [hh])]

lemma main_ok_elim {lines : List Str} {r : Result} (h : main lines = .ok r) :
    ∃ first rest, lines = first :: rest ∧
      startswith (strip first) HASH_SP = true ∧
      r = ⟨strip (parseHeaderContent ((strip first).drop 2)).1,
           strip (scanRest rest).2,
           strip (parseHeaderContent ((strip first).drop 2)).2,
           strip (scanRest rest).1⟩ := by
  cases lines with
  | nil => exact absurd h (by simp [main])
  | cons first rest =>
    by_cases hh : startswith (strip first) HASH_SP = true
    · refine ⟨first, rest, rfl, hh, ?_⟩
      rw [main_cons_ok hh] at h
      exact (Except.ok.inj h).symm
    · rw [main_cons_err (Bool.not_eq_true _ ▸ (by simpa using hh))] at h
      cases h

end GenerateLatestChanges

lemma bulletsBefore_clean (ls : List Str) :
    ∀ b ∈ bulletsBefore ls,
      (startswith b STAR_SP = true ∨ startswith b DASH_SP = true) ∧
        b ≠ [] ∧ stripRight b = b ∧ isSpace (b.headD ' ') = false := by
  intro b hb
  simp only [bulletsBefore, List.mem_map] at hb
  obtain ⟨l, hl, rfl⟩ := hb
  have hbl : isBulletLine l = true := List.of_mem_filter hl
  have hor : startswith (strip l) STAR_SP = true ∨ startswith (strip l) DASH_SP = true := by
    simpa [isBulletLine] using hbl
  exact ⟨hor, (bullet_clean hor).1, stripRight_strip l, (bullet_clean hor).2⟩

lemma strip_scan_changes (rest : List Str) :
    strip (GenerateLatestChanges.scanRest rest).1 = intercalateNL (bulletsBefore rest) := by
  rw [GenerateLatestChanges.scanRest_fst]
  apply strip_joinNL
  intro b hb
  have h := bulletsBefore_clean rest b hb
  exact ⟨h.2.1, h.2.2.1, h.2.2.2⟩

/-- Claim C1: for every document the extractor accepts, the changes output
equals exactly the stripped bullet lines (trimmed form starting with
`"* "` or `"- "`) among the lines after the first, in encountered order,
one per line, strictly before the first subsequent heading line; all other
lines are skipped; and version, old version, title and the changes block
are trimmed of surrounding whitespace before being written. -/
theorem claim_extractor_changes (lines : List Str)
    (r : GenerateLatestChanges.Result)
    (h : GenerateLatestChanges.main lines = .ok r) :
    r.latest_changes = intercalateNL (bulletsBefore lines.tail) ∧
      strip r.new_version = r.new_version ∧
      strip r.old_version = r.old_version ∧
      strip r.title = r.title ∧
      strip r.latest_changes = r.latest_changes := by
  obtain ⟨first, rest, rfl, hh, rfl⟩ := GenerateLatestChanges.main_ok_elim h
  refine ⟨?_, strip_idem _, strip_idem _, strip_idem _, strip_idem _⟩
  show strip (GenerateLatestChanges.scanRest rest).1 =
    intercalateNL (bulletsBefore (first :: rest).tail)
  simpa using strip_scan_changes rest

/-- Witness for C1 at the spec's example document. -/
theorem claim_extractor_changes_witness :
    (GenerateLatestChanges.Result.mk (("1.1.0").toList) (("1.0.0").toList)
        (("New Feature").toList)
        (("* First change\n* Second change").toList)).latest_changes =
      intercalateNL (bulletsBefore
        ([("# 1.1.0 - New Feature").toList, ("* First change").toList,
          ("* Second change").toList, [], ("# 1.0.0 - Initial Release").toList,
          ("* Initial features").toList].tail)) ∧
      strip (("1.1.0").toList) = ("1.1.0").toList ∧
      strip (("1.0.0").toList) = ("1.0.0").toList ∧
      strip (("New Feature").toList) = ("New Feature").toList ∧
      strip (("* First change\n* Second change").toList) =
        ("* First change\n* Second change").toList :=
  claim_extractor_changes
    [("# 1.1.0 - New Feature").toList, ("* First change").toList,
     ("* Second change").toList, [], ("# 1.0.0 - Initial Release").toList,
     ("* Initial features").toList]
    ⟨("1.1.0").toList, ("1.0.0").toList, ("New Feature").toList,
     ("* First change\n* Second change").toList⟩ rfl

/-- Claim C2 (counterexample): the claim says the `old_version` output
equals the version token of the second heading; for the document
`["# 2.0", "#  1.0"]` the version token of the second heading is `" 1.0"`
(the whole remainder after the `"# "` marker, which carries a leading
space), while the written `old_version` is the trimmed `"1.0"`. -/
theorem claim_old_version_cex :
    GenerateLatestChanges.main [("# 2.0").toList, ("#  1.0").toList] =
      Except.ok ⟨("2.0").toList, ("1.0").toList, ("Version 2.0").toList, []⟩ ∧
      GenerateLatestChanges.versionToken ((strip (("#  1.0").toList)).drop 2) =
        (" 1.0").toList ∧
      (("1.0").toList : Str) ≠ (" 1.0").toList :=
  ⟨rfl, rfl, by decide⟩

/-- Claim C2 (amended): for every accepted document, `old_version` equals
the whitespace-trimmed version token of the first heading line after the
first line (the document's second heading) when one exists, and the empty
string when none exists. -/
theorem claim_old_version (lines : List Str) (r : GenerateLatestChanges.Result)
    (h : GenerateLatestChanges.main lines = .ok r) :
    (∀ hd, (lines.tail).find? isHeadingLine = some hd →
        r.old_version =
          strip (GenerateLatestChanges.versionToken ((strip hd).drop 2))) ∧
      ((lines.tail).find? isHeadingLine = none → r.old_version = []) := by
  obtain ⟨first, rest, rfl, hh, rfl⟩ := GenerateLatestChanges.main_ok_elim h
  constructor
  · intro hd hfind
    show strip (GenerateLatestChanges.scanRest rest).2 = _
    rw [GenerateLatestChanges.scanRest_snd, oldVersionOf]
    simp only [List.tail_cons] at hfind
    rw [hfind]
  · intro hfind
    show strip (GenerateLatestChanges.scanRest rest).2 = _
    rw [GenerateLatestChanges.scanRest_snd, oldVersionOf]
    simp only [List.tail_cons] at hfind
    rw [hfind]
    rfl

/-- Witness for the amended C2, exercising both a document with a second
heading and a single-heading document. -/
theorem claim_old_version_witness :
    ((("1.0.0").toList : Str) =
        strip (GenerateLatestChanges.versionToken
          ((strip (("# 1.0.0 - Initial Release").toList)).drop 2))) ∧
      ((("").toList : Str) = []) :=
  ⟨(claim_old_version
      [("# 1.1.0 - New").toList, ("* x").toList,
       ("# 1.0.0 - Initial Release").toList]
      ⟨("1.1.0").toList, ("1.0.0").toList, ("New").toList, ("* x").toList⟩
      rfl).1 (("# 1.0.0 - Initial Release").toList) rfl,
   (claim_old_version [("# 2.0").toList]
      ⟨("2.0").toList, [], ("Version 2.0").toList, []⟩ rfl).2 rfl⟩

/-- Claim C3: `parseHeaderContent` splits the heading remainder at the
first occurrence of `" - "` into version and title, and when the separator
does not occur anywhere in the remainder, the version is the whole
remainder and the title is `"Version "` followed by it. -/
theorem claim_parse_header (hc v t : Str) :
    (splitOnce SEP hc = some (v, t) →
      GenerateLatestChanges.parseHeaderContent hc = (v, t) ∧
        hc = v ++ SEP ++ t ∧
        ∀ a b, hc = a ++ SEP ++ b → v.length ≤ a.length) ∧
      (splitOnce SEP hc = none →
        GenerateLatestChanges.parseHeaderContent hc = (hc, VERSION_SP ++ hc) ∧
          ∀ a b, hc ≠ a ++ SEP ++ b) := by
  constructor
  · intro hs
    refine ⟨?_, splitOnce_append hs, splitOnce_minimal hs⟩
    simp [GenerateLatestChanges.parseHeaderContent, containsStr, split1, hs]
  · intro hs
    refine ⟨?_, splitOnce_none hs⟩
    simp [GenerateLatestChanges.parseHeaderContent, containsStr, hs]

/-- Witness for C3: a heading with a separator and the spec's `"2.0.0"`
example without one. -/
theorem claim_parse_header_witness :
    (GenerateLatestChanges.parseHeaderContent (("1.1.0 - New Feature").toList) =
        ((("1.1.0").toList : Str), (("New Feature").toList : Str)) ∧
      ("1.1.0 - New Feature").toList =
        ("1.1.0").toList ++ SEP ++ ("New Feature").toList ∧
      ∀ a b, ("1.1.0 - New Feature").toList = a ++ SEP ++ b →
        (("1.1.0").toList : Str).length ≤ a.length) ∧
    (GenerateLatestChanges.parseHeaderContent (("2.0.0").toList) =
        ((("2.0.0").toList : Str), VERSION_SP ++ ("2.0.0").toList) ∧
      ∀ a b, ("2.0.0").toList ≠ a ++ SEP ++ b) :=
  ⟨(claim_parse_header (("1.1.0 - New Feature").toList) (("1.1.0").toList)
      (("New Feature").toList)).1 rfl,
   (claim_parse_header (("2.0.0").toList) [] []).2 rfl⟩

/-- Claim C4 (counterexample): the claim says the extractor fails with
`MalformedHeaderError` exactly when the first line does not start with
`"# "`; but the code tests the *stripped* first line, so the one-line
document whose first line is `"# "` (which does start with `"# "`) is
nevertheless rejected, because stripping leaves a bare `"#"`. -/
theorem claim_malformed_iff_cex :
    startswith (("# ").toList) HASH_SP = true ∧
      GenerateLatestChanges.main [("# ").toList] =
        Except.error GenerateLatestChanges.Error.malformedHeader :=
  ⟨rfl, rfl⟩

/-- Claim C4 (amended): for every non-empty document, the extractor fails
with `MalformedHeaderError` (exiting with status 1) if and only if the
whitespace-trimmed first line does not start with `"# "`. -/
theorem claim_malformed_iff (first : Str) (rest : List Str) :
    (GenerateLatestChanges.main (first :: rest) =
        .error .malformedHeader ↔
      startswith (strip first) HASH_SP = false) ∧
      (startswith (strip first) HASH_SP = false →
        GenerateLatestChanges.exitStatus (first :: rest) = 1) := by
  constructor
  · constructor
    · intro h
      by_cases hh : startswith (strip first) HASH_SP = true
      · rw [GenerateLatestChanges.main_cons_ok hh] at h
        cases h
      · exact Bool.not_eq_true _ ▸ (by simpa using hh)
    · intro h
      exact GenerateLatestChanges.main_cons_err h
  · intro h
    simp [GenerateLatestChanges.exitStatus, GenerateLatestChanges.main_cons_err h]

/-- Witness for the amended C4 at a document whose first line is not a
heading even after trimming. -/
theorem claim_malformed_iff_witness :
    GenerateLatestChanges.exitStatus [("hello").toList] = 1 :=
  (claim_malformed_iff (("hello").toList) []).2 rfl

/-- Claim C5: on either checked failure the extractor exits with status 1
and performs no file write at all, leaving the output state unchanged. -/
theorem claim_failure_no_writes (lines : List Str)
    (e : GenerateLatestChanges.Error)
    (h : GenerateLatestChanges.main lines = .error e) :
    GenerateLatestChanges.exitStatus lines = 1 ∧
      GenerateLatestChanges.mainWrites lines = [] := by
  constructor
  · simp [GenerateLatestChanges.exitStatus, h]
  · simp [GenerateLatestChanges.mainWrites, h]

/-- Witness for C5 at the empty document. -/
theorem claim_failure_no_writes_witness :
    GenerateLatestChanges.exitStatus [] = 1 ∧
      GenerateLatestChanges.mainWrites [] = [] :=
  claim_failure_no_writes [] GenerateLatestChanges.Error.emptyInput rfl

/-- Claim C10: `EmptyInputError` is raised exactly for the document with
zero lines; a non-empty document whose lines are all whitespace-only
instead fails with `MalformedHeaderError`, still exiting with status 1 and
writing nothing. -/
theorem claim_empty_only_no_lines (lines : List Str) :
    (GenerateLatestChanges.main lines =
        .error .emptyInput ↔ lines = []) ∧
      (lines ≠ [] → (∀ l ∈ lines, strip l = []) →
        GenerateLatestChanges.main lines = .error .malformedHeader ∧
          GenerateLatestChanges.exitStatus lines = 1 ∧
          GenerateLatestChanges.mainWrites lines = []) := by
  constructor
  · constructor
    · intro h
      cases lines with
      | nil => rfl
      | cons first rest =>
        by_cases hh : startswith (strip first) HASH_SP = true
        · rw [GenerateLatestChanges.main_cons_ok hh] at h
          cases h
        · rw [GenerateLatestChanges.main_cons_err
            (Bool.not_eq_true _ ▸ (by simpa using hh))] at h
          exact absurd (Except.error.inj h) (by decide)
    · rintro rfl
      rfl
  · intro hne hws
    cases lines with
    | nil => exact absurd rfl hne
    | cons first rest =>
      have h0 : strip first = [] := hws first (by simp)
      have hh : startswith (strip first) HASH_SP = false := by rw [h0]; rfl
      have hm : GenerateLatestChanges.main (first :: rest) =
          .error .malformedHeader := GenerateLatestChanges.main_cons_err hh
      exact ⟨hm, by simp [GenerateLatestChanges.exitStatus, hm],
        by simp [GenerateLatestChanges.mainWrites, hm]⟩

/-- Witness for C10 at the one-line whitespace-only document `" "`. -/
theorem claim_empty_only_no_lines_witness :
    GenerateLatestChanges.main [(" ").toList] =
        Except.error GenerateLatestChanges.Error.malformedHeader ∧
      GenerateLatestChanges.exitStatus [(" ").toList] = 1 ∧
      GenerateLatestChanges.mainWrites [(" ").toList] = [] :=
  (claim_empty_only_no_lines [(" ").toList]).2 (by decide) (by decide)

/-- Claim C9: when the extractor succeeds with a non-empty changes output,
the output consists of newline-separated lines each starting with `"* "`
or `"- "`, with no surrounding whitespace and no trailing newline. -/
theorem claim_changes_invariant (lines : List Str)
    (r : GenerateLatestChanges.Result)
    (h : GenerateLatestChanges.main lines = .ok r)
    (hnl : ∀ l ∈ lines, '\n' ∉ l) (hne : r.latest_changes ≠ []) :
    ∃ bs : List Str, bs ≠ [] ∧
      r.latest_changes = intercalateNL bs ∧
      (∀ b ∈ bs, '\n' ∉ b ∧
        (startswith b STAR_SP = true ∨ startswith b DASH_SP = true)) ∧
      strip r.latest_changes = r.latest_changes := by
  obtain ⟨first, rest, rfl, hh, rfl⟩ := GenerateLatestChanges.main_ok_elim h
  refine ⟨bulletsBefore rest, ?_, strip_scan_changes rest, ?_, strip_idem _⟩
  · intro hbs
    apply hne
    show strip (GenerateLatestChanges.scanRest rest).1 = []
    rw [strip_scan_changes, hbs]
    rfl
  · intro b hb
    constructor
    · simp only [bulletsBefore, List.mem_map] at hb
      obtain ⟨l, hl, rfl⟩ := hb
      intro hmem
      have hl2 : l ∈ rest :=
        (List.takeWhile_sublist _).subset (List.mem_of_mem_filter hl)
      exact (hnl l (List.mem_cons_of_mem _ hl2)) (mem_strip hmem)
    · exact (bulletsBefore_clean rest b hb).1

/-- Witness for C9 at the spec's example document. -/
theorem claim_changes_invariant_witness :
    ∃ bs : List Str, bs ≠ [] ∧
      (GenerateLatestChanges.Result.mk (("1.1.0").toList) (("1.0.0").toList)
          (("New Feature").toList)
          (("* First change\n* Second change").toList)).latest_changes =
        intercalateNL bs ∧
      (∀ b ∈ bs, '\n' ∉ b ∧
        (startswith b STAR_SP = true ∨ startswith b DASH_SP = true)) ∧
      strip (("* First change\n* Second change").toList) =
        ("* First change\n* Second change").toList :=
  claim_changes_invariant
    [("# 1.1.0 - New Feature").toList, ("* First change").toList,
     ("* Second change").toList, [], ("# 1.0.0 - Initial Release").toList,
     ("* Initial features").toList]
    ⟨("1.1.0").toList, ("1.0.0").toList, ("New Feature").toList,
     ("* First change\n* Second change").toList⟩
    rfl (by decide) (by decide)

namespace GenerateHtmlForSparkleRelease

lemma markdownBlocks_nil : markdownBlocks [] = [] := by
  rw [markdownBlocks]

lemma collectBullets_all {ls : List Str} (h : ∀ l ∈ ls, mdIsBullet l = true) :
    collectBullets ls = (ls, []) := by
  induction ls with
  | nil => rfl
  | cons l ls ih =>
    have ih' := ih (fun x hx => h x (by simp [hx]))
    simp [collectBullets, h l (by simp), ih']

lemma markdownBlocks_cons_h1 {l : Str} {rest : List Str}
    (hh : startswith l HASH_SP = true) :
    markdownBlocks (l :: rest) = .h1 (l.drop 2) :: markdownBlocks rest := by
  rw [markdownBlocks]
  rw [if_pos hh]

lemma markdownBlocks_cons_blank {rest : List Str} :
    markdownBlocks ([] :: rest) = markdownBlocks rest := by
  rw [markdownBlocks]
  rfl

lemma markdownBlocks_bullet_run {l : Str} {rest : List Str}
    (hb : mdIsBullet l = true) (hall : ∀ x ∈ rest, mdIsBullet x = true) :
    markdownBlocks (l :: rest) =
      [.ul ((l :: rest).map fun i => i.drop 2)] := by
  have hh : startswith l HASH_SP = false :=
    bullet_not_heading (by simpa [mdIsBullet] using hb)
  rw [markdownBlocks]
  rw [if_neg (by simp [hh]), if_pos hb, collectBullets_all hall]
  simp [markdownBlocks_nil]

lemma splitLines_append_cons (a rest : Str) (ha : '\n' ∉ a) :
    splitLines (a ++ '\n' :: rest) = a :: splitLines rest := by
  induction a with
  | nil => simp [splitLines]
  | cons c a ih =>
    have hc : c ≠ '\n' := fun e => ha (by simp [e])
    have ih' := ih (fun hm => ha (List.mem_cons_of_mem _ hm))
    simp only [List.cons_append, splitLines, if_neg hc, List.append_eq, ih']

lemma splitLines_no_nl (a : Str) (ha : '\n' ∉ a) : splitLines a = [a] := by
  induction a with
  | nil => rfl
  | cons c a ih =>
    have hc : c ≠ '\n' := fun e => ha (by simp [e])
    simp only [splitLines, if_neg hc, ih (fun hm => ha (List.mem_cons_of_mem _ hm))]

lemma splitLines_intercalateNL {bs : List Str} (hne : bs ≠ [])
    (hnl : ∀ b ∈ bs, '\n' ∉ b) :
    splitLines (intercalateNL bs) = bs := by
  induction bs with
  | nil => cases hne rfl
  | cons b bs ih =>
    cases bs with
    | nil => exact splitLines_no_nl b (hnl b (by simp))
    | cons b2 bs2 =>
      show splitLines (b ++ '\n' :: intercalateNL (b2 :: bs2)) = _
      rw [splitLines_append_cons b _ (hnl b (by simp)),
        ih (by simp) (fun x hx => hnl x (by simp [hx]))]

lemma drop_two_hash (t : Str) : (HASH_SP ++ t).drop 2 = t := by
  exact List.drop_left HASH_SP t

lemma rendererBlocks_of_bullets (t : Str) (bs : List Str)
    (hts : strip t = t) (htn : '\n' ∉ t)
    (hcs : strip (intercalateNL bs) = intercalateNL bs)
    (hbs : ∀ b ∈ bs, mdIsBullet b = true ∧ '\n' ∉ b) :
    rendererBlocks t (intercalateNL bs) =
      Block.h1 t ::
        (if bs = [] then [] else [Block.ul (bs.map fun i => i.drop 2)]) := by
  unfold rendererBlocks mkMdContent
  rw [hts, hcs]
  have hassoc :
      HASH_SP ++ t ++ ("\n\n").toList ++ intercalateNL bs =
        (HASH_SP ++ t) ++ '\n' :: ('\n' :: intercalateNL bs) := by
    simp [List.append_assoc]
  rw [hassoc]
  have hna : '\n' ∉ HASH_SP ++ t := by
    intro hx
    rcases List.mem_append.mp hx with h1 | h2
    · exact absurd h1 (by decide)
    · exact htn h2
  rw [splitLines_append_cons _ _ hna]
  have h2 : splitLines ('\n' :: intercalateNL bs) = [] :: splitLines (intercalateNL bs) := by
    simp [splitLines]
  rw [h2, markdownBlocks_cons_h1 (startswith_append HASH_SP t),
    drop_two_hash, markdownBlocks_cons_blank]
  cases hbse : bs with
  | nil =>
    have e1 : markdownBlocks (splitLines (intercalateNL ([] : List Str))) = [] := by
      show markdownBlocks [[]] = []
      rw [markdownBlocks_cons_blank, markdownBlocks_nil]
    rw [e1]
    simp
  | cons b rest =>
    rw [splitLines_intercalateNL (by simp) (fun x hx => ((hbse ▸ hbs) x hx).2)]
    rw [markdownBlocks_bullet_run ((hbs b (by simp [hbse])).1)
      (fun x hx => (hbs x (by simp [hbse, hx])).1)]
    simp

end GenerateHtmlForSparkleRelease

lemma mem_parseHeaderContent_snd {x : Char} {hc : Str}
    (h : x ∈ (GenerateLatestChanges.parseHeaderContent hc).2) :
    x ∈ VERSION_SP ∨ x ∈ hc := by
  unfold GenerateLatestChanges.parseHeaderContent at h
  by_cases hcont : containsStr hc SEP = true
  · rw [if_pos hcont] at h
    unfold containsStr at hcont
    rcases hs : splitOnce SEP hc with _ | ⟨v, t⟩
    · rw [hs] at hcont
      cases hcont
    · have he := splitOnce_append hs
      unfold split1 at h
      rw [hs] at h
      right
      rw [he]
      simp [h]
  · rw [if_neg hcont] at h
    rcases List.mem_append.mp h with h1 | h2
    · exact Or.inl h1
    · exact Or.inr h2

lemma mem_parseHeaderContent_fst {x : Char} {hc : Str}
    (h : x ∈ (GenerateLatestChanges.parseHeaderContent hc).1) : x ∈ hc := by
  unfold GenerateLatestChanges.parseHeaderContent at h
  by_cases hcont : containsStr hc SEP = true
  · rw [if_pos hcont] at h
    unfold containsStr at hcont
    rcases hs : splitOnce SEP hc with _ | ⟨v, t⟩
    · rw [hs] at hcont
      cases hcont
    · have he := splitOnce_append hs
      unfold split1 at h
      rw [hs] at h
      rw [he]
      simp [h]
  · rw [if_neg hcont] at h
    exact h

lemma title_no_newline {first : Str} (hnl : '\n' ∉ first) :
    '\n' ∉ strip (GenerateLatestChanges.parseHeaderContent ((strip first).drop 2)).2 := by
  intro hm
  have h2 := mem_strip hm
  rcases mem_parseHeaderContent_snd h2 with h3 | h3
  · exact absurd h3 (by decide)
  · exact hnl (mem_strip (List.drop_subset _ _ h3))

/-- Claim C6 (counterexample): the claim asserts the rendered document
always contains exactly one unordered list, with a list-item count equal
to the number of extracted bullets even when that number is zero; but for
the accepted document `["# 1.0"]` the extractor emits an empty changes
block and the markdown conversion then produces no `ul` element at all. -/
theorem claim_roundtrip_cex :
    GenerateLatestChanges.main [("# 1.0").toList] =
      Except.ok ⟨("1.0").toList, [], ("Version 1.0").toList, []⟩ ∧
      GenerateHtmlForSparkleRelease.rendererBlocks
          (("Version 1.0").toList) [] =
        [GenerateHtmlForSparkleRelease.Block.h1 (("Version 1.0").toList)] ∧
      (GenerateHtmlForSparkleRelease.rendererBlocks
          (("Version 1.0").toList) []).filter
            GenerateHtmlForSparkleRelease.Block.isUl = [] := by
  have h1 : GenerateHtmlForSparkleRelease.rendererBlocks
      (("Version 1.0").toList) [] =
      [GenerateHtmlForSparkleRelease.Block.h1 (("Version 1.0").toList)] := by
    have := GenerateHtmlForSparkleRelease.rendererBlocks_of_bullets
      (("Version 1.0").toList) [] (by decide) (by decide) rfl (by simp)
    simpa using this
  exact ⟨rfl, h1, by rw [h1]; rfl⟩

/-- Claim C6 (amended): feeding the extractor's title and changes outputs
into the renderer produces a fragment consisting of exactly one `h1` block
whose text equals the title, followed — when at least one bullet line was
extracted — by exactly one `ul` block with one `li` per extracted bullet
line; when no bullet line was extracted, the fragment has no `ul` block at
all. -/
theorem claim_roundtrip (lines : List Str) (r : GenerateLatestChanges.Result)
    (h : GenerateLatestChanges.main lines = .ok r)
    (hnl : ∀ l ∈ lines, '\n' ∉ l) :
    (bulletsBefore lines.tail = [] →
        GenerateHtmlForSparkleRelease.rendererBlocks r.title r.latest_changes =
          [GenerateHtmlForSparkleRelease.Block.h1 r.title]) ∧
      (bulletsBefore lines.tail ≠ [] →
        GenerateHtmlForSparkleRelease.rendererBlocks r.title r.latest_changes =
          [GenerateHtmlForSparkleRelease.Block.h1 r.title,
           GenerateHtmlForSparkleRelease.Block.ul
             ((bulletsBefore lines.tail).map fun i => i.drop 2)]) := by
  obtain ⟨first, rest, rfl, hh, rfl⟩ := GenerateLatestChanges.main_ok_elim h
  simp only [List.tail_cons]
  have hbul : ∀ b ∈ bulletsBefore rest,
      GenerateHtmlForSparkleRelease.mdIsBullet b = true ∧ '\n' ∉ b := by
    intro b hb
    constructor
    · have := (bulletsBefore_clean rest b hb).1
      simp [GenerateHtmlForSparkleRelease.mdIsBullet]
      rcases this with h1 | h1
      · exact Or.inl h1
      · exact Or.inr h1
    · simp only [bulletsBefore, List.mem_map] at hb
      obtain ⟨l, hl, rfl⟩ := hb
      intro hmem
      have hl2 : l ∈ rest :=
        (List.takeWhile_sublist _).subset (List.mem_of_mem_filter hl)
      exact (hnl l (List.mem_cons_of_mem _ hl2)) (mem_strip hmem)
  have hstruct := GenerateHtmlForSparkleRelease.rendererBlocks_of_bullets
    (strip (GenerateLatestChanges.parseHeaderContent ((strip first).drop 2)).2)
    (bulletsBefore rest)
    (strip_idem _) (title_no_newline (hnl first (by simp)))
    (by rw [← strip_scan_changes rest]; exact strip_idem _) hbul
  have hlc : strip (GenerateLatestChanges.scanRest rest).1 =
      intercalateNL (bulletsBefore rest) := strip_scan_changes rest
  constructor
  · intro hbs
    show GenerateHtmlForSparkleRelease.rendererBlocks _
      (strip (GenerateLatestChanges.scanRest rest).1) = _
    rw [hlc, hstruct, hbs]
    simp
  · intro hbs
    show GenerateHtmlForSparkleRelease.rendererBlocks _
      (strip (GenerateLatestChanges.scanRest rest).1) = _
    rw [hlc, hstruct]
    simp [hbs]

/-- Witness for the amended C6 at the spec's example document, which has
two extracted bullets. -/
theorem claim_roundtrip_witness :
    GenerateHtmlForSparkleRelease.rendererBlocks (("New Feature").toList)
        (("* First change\n* Second change").toList) =
      [GenerateHtmlForSparkleRelease.Block.h1 (("New Feature").toList),
       GenerateHtmlForSparkleRelease.Block.ul
         ((bulletsBefore
            [("* First change").toList, ("* Second change").toList, [],
             ("# 1.0.0 - Initial Release").toList,
             ("* Initial features").toList]).map fun i => i.drop 2)] :=
  (claim_roundtrip
    [("# 1.1.0 - New Feature").toList, ("* First change").toList,
     ("* Second change").toList, [], ("# 1.0.0 - Initial Release").toList,
     ("* Initial features").toList]
    ⟨("1.1.0").toList, ("1.0.0").toList, ("New Feature").toList,
     ("* First change\n* Second change").toList⟩
    rfl (by decide)).2 (by decide)

/-- Claim C7: the renderer's output is the fixed skeleton — doctype, head
with UTF-8 charset, a title element holding the trimmed title, the fixed
inline style block — with the markdown conversion of the document
`"# {title}\n\n{changes}"` placed in the body; only the title and the
converted fragment vary with the inputs. -/
theorem claim_renderer_skeleton (title_file changes_file : Str) :
    GenerateHtmlForSparkleRelease.main title_file changes_file =
      GenerateHtmlForSparkleRelease.HTML_PRE ++ strip title_file ++
        GenerateHtmlForSparkleRelease.HTML_MID ++
        GenerateHtmlForSparkleRelease.markdownHtml
          (GenerateHtmlForSparkleRelease.mkMdContent (strip title_file)
            (strip changes_file)) ++
        GenerateHtmlForSparkleRelease.HTML_POST := rfl

/-- Claim C8: both stages are deterministic functions of their input
files, so running the extractor followed by the renderer a second time on
an unchanged working directory leaves every output file byte-identical. -/
theorem claim_pipeline_idem (fs : FS) : pipeline (pipeline fs) = pipeline fs := by
  cases fs with
  | mk rn nv ov ti lc ht =>
    rcases hm : GenerateLatestChanges.main (readlines rn) with e | r
    · cases ti <;> cases lc <;>
        simp [pipeline, extractorRun, rendererRun, hm]
    · cases ti <;> cases lc <;>
        simp [pipeline, extractorRun, rendererRun, hm]
